import Mathlib

/-!
Verification of the market-merger ETL pipeline
(src/pipeline_dados/dev/scripts/fusao_mercados_fev.py).

The script sequences four PySpark stages: load_dataframe, process_dataframe,
union_dataframes, save_dataframe.  We embed a Spark DataFrame as a list of
named, typed columns together with a list of rows; a cell is an optional
string value, with none standing for a null cell.  The engine operations the
script calls (withColumnRenamed, withColumn with a null string literal,
unionByName with allowMissingColumns, the format-dispatched readers and
writers) are embedded below; stage-level Python exceptions are made explicit
with Except, where an error value means an exception escaped the stage.
-/

namespace FusaoMercados

/-- A cell of a dataset: none is a null cell. -/
abbrev Val := Option String

/-- A dataset: named, typed columns (name, dtype) plus rows of cells. -/
structure DataFrame where
  cols : List (String × String)
  rows : List (List Val)
deriving Repr, DecidableEq

/-- The column names of a dataset, in schema order. -/
def colNames (df : DataFrame) : List String := df.cols.map Prod.fst

/-- A well-formed dataset: every row has one cell per column. -/
def WF (df : DataFrame) : Prop := ∀ r ∈ df.rows, r.length = df.cols.length

instance (df : DataFrame) : Decidable (WF df) := by unfold WF; infer_instance

/-- Model of the Python str.lower method (ASCII data, as in the format tags
and column names the script compares). -/
def strLower (s : String) : String := ⟨s.data.map Char.toLower⟩

/-- Index of the first column with a given name, if any. -/
def idxOf? (names : List String) (x : String) : Option Nat :=
  match names with
  | [] => none
  | c :: t => if c = x then some 0 else (idxOf? t x).map (· + 1)

/-- The cell a row holds for a named column: the cell at the first index of
that name, null when the name or the cell is missing. -/
def lookupVal (names : List String) (row : List Val) (name : String) : Val :=
  match idxOf? names name with
  | some i => row.getD i none
  | none => none

/-- The values of a named column, row by row. -/
def getCol (df : DataFrame) (name : String) : List Val :=
  df.rows.map (fun r => lookupVal (colNames df) r name)

/-- The cell at row j, column position i (null when out of range). -/
def cellAt (df : DataFrame) (j i : Nat) : Val := (df.rows.getD j []).getD i none

/-- Engine rename operation (df.withColumnRenamed): every column named old
is renamed to new, values untouched. -/
def withColumnRenamed (df : DataFrame) (old new : String) : DataFrame :=
  ⟨df.cols.map (fun c => if c.1 = old then (new, c.2) else c), df.rows⟩

/-- Engine add-or-replace column operation df.withColumn(col,
lit(None).cast(StringType())), modelled in its add case, the one the script
reaches when the named column is genuinely missing: appends a column of the
given name, dtype string, every cell null.  When a same-named column
already exists (case-insensitively, under the default engine case
sensitivity) the real operation replaces it instead; statements about the
corner of the loop that can reach that replace case are made parametric in
the engine operation (see addMissingSteps) so they do not depend on this
model. -/
def withColumnNullString (df : DataFrame) (name : String) : DataFrame :=
  ⟨df.cols ++ [(name, "string")], df.rows.map (fun r => r ++ [none])⟩

/-- One iteration of the rename loop of process_dataframe: rename if the old
name is currently a column, otherwise skip (the script logs a warning). -/
def renameStep (acc : DataFrame) (p : String × String) : DataFrame :=
  if p.1 ∈ colNames acc then withColumnRenamed acc p.1 p.2 else acc

/-- The rename loop of process_dataframe, in mapping order. -/
def renameLoop (df : DataFrame) (mapping : List (String × String)) : DataFrame :=
  mapping.foldl renameStep df

/-- One iteration of the required-columns loop of process_dataframe: cur is
the snapshot of lowercased column names computed before the loop. -/
def addStep (cur : List String) (acc : DataFrame) (col : String) : DataFrame :=
  if strLower col ∈ cur then acc else withColumnNullString acc col

/-- The required-columns loop of process_dataframe, against the fixed
snapshot cur of lowercased column names. -/
def addMissing (df : DataFrame) (cur : List String) (required : List String) : DataFrame :=
  required.foldl (addStep cur) df

/-- The same required-columns loop, parametric in the engine withColumn
operation and instrumented: alongside the dataset it returns, in order, the
required entries for which the append branch ran (a withColumn call was
issued).  The branch test is the loop's own: the lowercased entry against
the fixed snapshot cur, never against the evolving dataset. -/
def addMissingSteps (withCol : DataFrame → String → DataFrame)
    (df : DataFrame) (cur : List String) (required : List String) :
    DataFrame × List String :=
  required.foldl
    (fun acc col =>
      if strLower col ∈ cur then acc
      else (withCol acc.1 col, acc.2 ++ [col]))
    (df, [])

/-- process_dataframe: rename columns per the mapping in order, then append
any required column whose lowercase form is absent from the snapshot of
lowercased column names taken after the renames. -/
def processDataframe (df : DataFrame) (mapping : List (String × String))
    (required_columns : List String) : DataFrame :=
  let renamed := renameLoop df mapping
  let current_columns := (colNames renamed).map strLower
  addMissing renamed current_columns required_columns

/-- Engine union operation df1.unionByName(df2, allowMissingColumns=True):
the output schema is the columns of df1 followed by the columns of df2 not
named in df1; rows of df1 are padded with nulls for the extra columns, rows
of df2 are realigned by name with nulls for columns df2 lacks. -/
def unionByName (df1 df2 : DataFrame) : DataFrame :=
  let extra := df2.cols.filter (fun c => decide (c.1 ∉ colNames df1))
  ⟨df1.cols ++ extra,
    df1.rows.map (fun r => r ++ extra.map (fun _ => (none : Val)))
      ++ df2.rows.map (fun r => (df1.cols ++ extra).map
          (fun c => lookupVal (colNames df2) r c.1))⟩

/-- Sample dataset with columns x, y (one row), for concrete checks. -/
def dfA : DataFrame := ⟨[("x", "int"), ("y", "int")], [[some "1", some "2"]]⟩

/-- Sample dataset with columns y, z (one row), for concrete checks. -/
def dfB : DataFrame := ⟨[("y", "int"), ("z", "int")], [[some "3", some "4"]]⟩

/-- Result of a reader call inside the try block of load_dataframe: an error
value models the engine raising, which the except clause turns into None. -/
def caughtRead (r : Except String DataFrame) : Option DataFrame :=
  match r with
  | .ok df => some df
  | .error _ => none

/-- load_dataframe: dispatch on the lowercased file type, json and csv
supported; an unsupported type returns None; engine failures are caught and
become None.  The read oracle gives the outcome of each engine reader; the
whole body sits in a try/except, so the stage never lets an exception
escape (the Except layer records that: an error value would be an escaped
exception). -/
def loadDataframe (read : String → Except String DataFrame) (path : String)
    (file_type : String) (options : List (String × String)) :
    Except String (Option DataFrame) :=
  .ok (if strLower file_type = "json" then caughtRead (read "json")
       else if strLower file_type = "csv" then caughtRead (read "csv")
       else none)

/-- process_dataframe as invoked on a possibly absent upstream result: the
Python body has no try/except and no None guard, so an absent dataset hits
an attribute access on None and the exception escapes the stage. -/
def processDataframeStage (df : Option DataFrame) (mapping : List (String × String))
    (required_columns : List String) : Except String DataFrame :=
  match df with
  | none => .error "AttributeError: NoneType object has no attribute columns"
  | some d => .ok (processDataframe d mapping required_columns)

/-- union_dataframes: a None guard before the try returns None without
touching the engine; otherwise unionByName runs inside try/except.  The
boolean records whether the engine union operation was invoked. -/
def unionDataframes (df1 df2 : Option DataFrame) :
    Except String (Option DataFrame × Bool) :=
  match df1, df2 with
  | some a, some b => .ok (some (unionByName a b), true)
  | _, _ => .ok (none, false)

/-- Outcome of invoking an engine writer for a format inside the try block
of save_dataframe: the flag pairs the returned success with the writer that
was invoked. -/
def attemptWrite (write : String → Except String Unit) (fmt : String) :
    Bool × Option String :=
  match write fmt with
  | .ok _ => (true, some fmt)
  | .error _ => (false, some fmt)

/-- save_dataframe: a None guard returns False before the try; otherwise
dispatch on the lowercased format among csv, parquet, json; an unsupported
format returns False with no writer invoked; writer failures are caught and
return False.  The second component names the writer invoked, none meaning
no filesystem write was attempted. -/
def saveDataframe (df : Option DataFrame) (output_path : String)
    (file_format : String) (options : List (String × String))
    (write : String → Except String Unit) :
    Except String (Bool × Option String) :=
  match df with
  | none => .ok (false, none)
  | some _ =>
    .ok (if strLower file_format = "csv" then attemptWrite write "csv"
         else if strLower file_format = "parquet" then attemptWrite write "parquet"
         else if strLower file_format = "json" then attemptWrite write "json"
         else (false, none))

/-! Basic lemmas about column lookup and padded rows. -/

theorem idxOf?_eq_none (names : List String) (x : String) (h : x ∉ names) :
    idxOf? names x = none := by
  induction names with
  | nil => rfl
  | cons c t ih =>
    simp only [List.mem_cons, not_or] at h
    have hcx : ¬c = x := fun hc => h.1 hc.symm
    simp [idxOf?, hcx, ih h.2]

theorem idxOf?_eq_some_of_mem (names : List String) (x : String) (h : x ∈ names) :
    ∃ i, idxOf? names x = some i ∧ i < names.length := by
  induction names with
  | nil => simp at h
  | cons c t ih =>
    by_cases hc : c = x
    · exact ⟨0, by simp [idxOf?, hc], by simp⟩
    · obtain ⟨i, hi, hlen⟩ :=
        ih ((List.mem_cons.mp h).resolve_left fun hx => hc hx.symm)
      exact ⟨i + 1, by simp [idxOf?, hc, hi], by simpa using Nat.succ_lt_succ hlen⟩

theorem idxOf?_lt_length (names : List String) (x : String) (i : Nat)
    (h : idxOf? names x = some i) : i < names.length := by
  induction names generalizing i with
  | nil => simp [idxOf?] at h
  | cons c t ih =>
    by_cases hc : c = x
    · simp [idxOf?, hc] at h
      simp [← h]
    · simp only [idxOf?, hc, if_false, Option.map_eq_some'] at h
      obtain ⟨j, hj, rfl⟩ := h
      simpa using Nat.succ_lt_succ (ih j hj)

theorem idxOf?_getD (names : List String) (x : String) (i : Nat) (d : String)
    (h : idxOf? names x = some i) : names.getD i d = x := by
  induction names generalizing i with
  | nil => simp [idxOf?] at h
  | cons c t ih =>
    by_cases hc : c = x
    · simp [idxOf?, hc] at h
      simp [← h, hc]
    · simp only [idxOf?, hc, if_false, Option.map_eq_some'] at h
      obtain ⟨j, hj, rfl⟩ := h
      simpa using ih j hj

theorem idxOf?_append_left (l₁ l₂ : List String) (x : String) (h : x ∈ l₁) :
    idxOf? (l₁ ++ l₂) x = idxOf? l₁ x := by
  induction l₁ with
  | nil => simp at h
  | cons c t ih =>
    by_cases hc : c = x
    · simp [idxOf?, hc]
    · have : x ∈ t := (List.mem_cons.mp h).resolve_left fun hx => hc hx.symm
      simp [idxOf?, hc, ih this]

theorem idxOf?_append_right (l₁ l₂ : List String) (x : String) (h : x ∉ l₁) :
    idxOf? (l₁ ++ l₂) x = (idxOf? l₂ x).map (· + l₁.length) := by
  induction l₁ with
  | nil => simp
  | cons c t ih =>
    simp only [List.mem_cons, not_or] at h
    rw [List.cons_append, idxOf?, if_neg fun hc => h.1 hc.symm, ih h.2]
    cases idxOf? l₂ x <;> simp [Nat.add_assoc, Nat.add_comm 1]

theorem idxOf?_map_congr (l : List String) (f : String → String) (x y : String)
    (h : ∀ a ∈ l, f a = x ↔ a = y) : idxOf? (l.map f) x = idxOf? l y := by
  induction l with
  | nil => rfl
  | cons c t ih =>
    have hc := h c (List.mem_cons_self c t)
    have ht := fun a ha => h a (List.mem_cons_of_mem c ha)
    by_cases hcy : c = y
    · subst hcy
      simp [idxOf?, hc.mpr rfl]
    · have hfc : ¬f c = x := fun hfc => hcy (hc.mp hfc)
      simp [idxOf?, hfc, hcy, ih ht]

theorem getD_of_length_le {α : Type} (l : List α) (i : Nat) (d : α)
    (h : l.length ≤ i) : l.getD i d = d := by
  induction l generalizing i with
  | nil => simp
  | cons a t ih =>
    cases i with
    | zero => simp at h
    | succ j => simpa using ih j (Nat.le_of_succ_le_succ h)

theorem getD_append_add {α : Type} (l₁ l₂ : List α) (d : α) (k : Nat) :
    (l₁ ++ l₂).getD (l₁.length + k) d = l₂.getD k d := by
  induction l₁ with
  | nil => simp
  | cons a t ih => simpa [Nat.succ_add] using ih

theorem getD_pad_none (r pad : List Val) (i : Nat) (hp : ∀ v ∈ pad, v = none) :
    (r ++ pad).getD i none = r.getD i none := by
  induction r generalizing i with
  | nil =>
    simp only [List.nil_append, List.getD_nil]
    induction pad generalizing i with
    | nil => simp
    | cons v t ih =>
      cases i with
      | zero => simpa using hp v (List.mem_cons_self v t)
      | succ j => simpa using ih (fun u hu => hp u (List.mem_cons_of_mem v hu)) j
  | cons a t ih =>
    cases i with
    | zero => simp
    | succ j => simpa using ih j

theorem getD_map_of_lt {α β : Type} (f : α → β) (l : List α) (i : Nat)
    (h : i < l.length) (d : β) (d' : α) : (l.map f).getD i d = f (l.getD i d') := by
  induction l generalizing i with
  | nil => simp at h
  | cons a t ih =>
    cases i with
    | zero => simp
    | succ j => simpa using ih j (Nat.lt_of_succ_lt_succ h)

theorem getD_mem {α : Type} (l : List α) (i : Nat) (d : α) (h : i < l.length) :
    l.getD i d ∈ l := by
  induction l generalizing i with
  | nil => simp at h
  | cons a t ih =>
    cases i with
    | zero => simp
    | succ j => exact List.mem_cons_of_mem a (ih j (Nat.lt_of_succ_lt_succ h))

/-! Lemmas about the rename operation and the rename loop. -/

theorem map_fst_rename (l : List (String × String)) (o n : String) :
    (l.map (fun c => if c.1 = o then (n, c.2) else c)).map Prod.fst
      = (l.map Prod.fst).map (fun y => if y = o then n else y) := by
  induction l with
  | nil => rfl
  | cons c t ih => by_cases h : c.1 = o <;> simp [h, ih]

theorem colNames_rename (df : DataFrame) (o n : String) :
    colNames (withColumnRenamed df o n)
      = (colNames df).map (fun y => if y = o then n else y) := by
  simpa [colNames, withColumnRenamed] using map_fst_rename df.cols o n

theorem rename_rows (df : DataFrame) (o n : String) :
    (withColumnRenamed df o n).rows = df.rows := rfl

theorem mem_colNames_rename_of_ne (df : DataFrame) (o n x : String)
    (hxo : x ≠ o) (hx : x ∈ colNames df) :
    x ∈ colNames (withColumnRenamed df o n) := by
  rw [colNames_rename]
  exact List.mem_map.mpr ⟨x, hx, by simp [hxo]⟩

theorem not_mem_colNames_rename (df : DataFrame) (o n x : String)
    (hx : x ∉ colNames df) (hxn : x ≠ n) :
    x ∉ colNames (withColumnRenamed df o n) := by
  rw [colNames_rename]
  intro hmem
  obtain ⟨y, hy, hyx⟩ := List.mem_map.mp hmem
  by_cases hyo : y = o
  · rw [if_pos hyo] at hyx
    exact hxn hyx.symm
  · rw [if_neg hyo] at hyx
    exact hx (hyx ▸ hy)

theorem not_mem_colNames_rename_old (df : DataFrame) (o n : String) (hne : n ≠ o) :
    o ∉ colNames (withColumnRenamed df o n) := by
  rw [colNames_rename]
  intro hmem
  obtain ⟨y, hy, hyo⟩ := List.mem_map.mp hmem
  by_cases h : y = o
  · rw [if_pos h] at hyo
    exact hne hyo
  · rw [if_neg h] at hyo
    exact h hyo

theorem mem_colNames_rename_new (df : DataFrame) (o n : String)
    (ho : o ∈ colNames df) : n ∈ colNames (withColumnRenamed df o n) := by
  rw [colNames_rename]
  exact List.mem_map.mpr ⟨o, ho, by simp⟩

theorem getCol_rename_other (df : DataFrame) (o n x : String)
    (hxo : x ≠ o) (hxn : x ≠ n) :
    getCol (withColumnRenamed df o n) x = getCol df x := by
  unfold getCol
  rw [rename_rows]
  apply List.map_congr_left
  intro r _
  have hidx : idxOf? (colNames (withColumnRenamed df o n)) x = idxOf? (colNames df) x := by
    rw [colNames_rename]
    apply idxOf?_map_congr
    intro a _
    by_cases h : a = o
    · have h1 : n ≠ x := Ne.symm hxn
      have h2 : o ≠ x := Ne.symm hxo
      simp [h, h1, h2]
    · simp [h]
  rw [lookupVal, lookupVal, hidx]

theorem getCol_rename_new (df : DataFrame) (o n : String) (hn : n ∉ colNames df) :
    getCol (withColumnRenamed df o n) n = getCol df o := by
  unfold getCol
  rw [rename_rows]
  apply List.map_congr_left
  intro r _
  have hidx : idxOf? (colNames (withColumnRenamed df o n)) n = idxOf? (colNames df) o := by
    rw [colNames_rename]
    apply idxOf?_map_congr
    intro a ha
    by_cases h : a = o
    · simp [h]
    · have han : a ≠ n := fun he => hn (he ▸ ha)
      simp [h, han]
  rw [lookupVal, lookupVal, hidx]

theorem renameLoop_append (df : DataFrame) (l₁ l₂ : List (String × String)) :
    renameLoop df (l₁ ++ l₂) = renameLoop (renameLoop df l₁) l₂ :=
  List.foldl_append _ _ _ _

theorem renameLoop_preserve (m : List (String × String)) :
    ∀ df x, x ∈ colNames df → x ∉ m.map Prod.fst → x ∉ m.map Prod.snd →
      x ∈ colNames (renameLoop df m) ∧ getCol (renameLoop df m) x = getCol df x := by
  induction m with
  | nil => exact fun df x hx _ _ => ⟨hx, rfl⟩
  | cons p t ih =>
    intro df x hx hk ht
    simp only [List.map_cons, List.mem_cons, not_or] at hk ht
    have hstep : x ∈ colNames (renameStep df p) ∧
        getCol (renameStep df p) x = getCol df x := by
      unfold renameStep
      by_cases h : p.1 ∈ colNames df
      · rw [if_pos h]
        exact ⟨mem_colNames_rename_of_ne df p.1 p.2 x hk.1 hx,
          getCol_rename_other df p.1 p.2 x hk.1 ht.1⟩
      · rw [if_neg h]
        exact ⟨hx, rfl⟩
    obtain ⟨h1, h2⟩ := ih (renameStep df p) x hstep.1 hk.2 ht.2
    exact ⟨h1, h2.trans hstep.2⟩

theorem renameLoop_not_mem (m : List (String × String)) :
    ∀ df x, x ∉ colNames df → x ∉ m.map Prod.snd →
      x ∉ colNames (renameLoop df m) := by
  induction m with
  | nil => exact fun df x hx _ => hx
  | cons p t ih =>
    intro df x hx ht
    simp only [List.map_cons, List.mem_cons, not_or] at ht
    apply ih (renameStep df p) x _ ht.2
    unfold renameStep
    by_cases h : p.1 ∈ colNames df
    · rw [if_pos h]
      exact not_mem_colNames_rename df p.1 p.2 x hx ht.1
    · rw [if_neg h]
      exact hx

theorem renameLoop_rows (m : List (String × String)) :
    ∀ df, (renameLoop df m).rows = df.rows := by
  induction m with
  | nil => exact fun df => rfl
  | cons p t ih =>
    intro df
    have : (renameStep df p).rows = df.rows := by
      unfold renameStep
      by_cases h : p.1 ∈ colNames df <;> simp [h, rename_rows]
    rw [renameLoop, List.foldl_cons, ← renameLoop, ih, this]

theorem renameLoop_cols_length (m : List (String × String)) :
    ∀ df, (renameLoop df m).cols.length = df.cols.length := by
  induction m with
  | nil => exact fun df => rfl
  | cons p t ih =>
    intro df
    have : (renameStep df p).cols.length = df.cols.length := by
      unfold renameStep
      by_cases h : p.1 ∈ colNames df <;> simp [h, withColumnRenamed]
    rw [renameLoop, List.foldl_cons, ← renameLoop, ih, this]

/-! Lemmas about the required-columns loop. -/

theorem colNames_withColumnNullString (df : DataFrame) (name : String) :
    colNames (withColumnNullString df name) = colNames df ++ [name] := by
  simp [colNames, withColumnNullString]

theorem lookupVal_pad (names : List String) (c x : String) (r : List Val)
    (hx : x ∈ names) :
    lookupVal (names ++ [c]) (r ++ [none]) x = lookupVal names r x := by
  rw [lookupVal, lookupVal, idxOf?_append_left _ _ _ hx]
  cases h : idxOf? names x with
  | none => rfl
  | some i => exact getD_pad_none r [none] i (by simp)

theorem getCol_withColumnNullString (df : DataFrame) (c x : String)
    (hx : x ∈ colNames df) :
    getCol (withColumnNullString df c) x = getCol df x := by
  unfold getCol
  have hrows : (withColumnNullString df c).rows = df.rows.map (· ++ [none]) := rfl
  rw [hrows, List.map_map]
  apply List.map_congr_left
  intro r _
  show lookupVal (colNames (withColumnNullString df c)) (r ++ [none]) x
      = lookupVal (colNames df) r x
  rw [colNames_withColumnNullString]
  exact lookupVal_pad _ _ _ _ hx

theorem cellAt_withColumnNullString (df : DataFrame) (c : String) (j i : Nat) :
    cellAt (withColumnNullString df c) j i = cellAt df j i := by
  have hrows : (withColumnNullString df c).rows = df.rows.map (· ++ [none]) := rfl
  unfold cellAt
  rw [hrows]
  by_cases h : j < df.rows.length
  · rw [getD_map_of_lt _ _ _ h [] []]
    exact getD_pad_none _ _ _ (by simp)
  · rw [getD_of_length_le (df.rows.map (· ++ [none])) j []
        (by simpa using Nat.le_of_not_lt h),
      getD_of_length_le df.rows j [] (Nat.le_of_not_lt h)]

theorem addMissing_cols_suffix (req : List String) :
    ∀ df cur, ∃ s, (addMissing df cur req).cols = df.cols ++ s := by
  induction req with
  | nil => exact fun df cur => ⟨[], by simp [addMissing]⟩
  | cons c t ih =>
    intro df cur
    rw [addMissing, List.foldl_cons, ← addMissing]
    by_cases h : strLower c ∈ cur
    · simp only [addStep, if_pos h]
      exact ih df cur
    · simp only [addStep, if_neg h]
      obtain ⟨s, hs⟩ := ih (withColumnNullString df c) cur
      exact ⟨(c, "string") :: s, by rw [hs]; simp [withColumnNullString]⟩

theorem addMissing_mem_mono (req : List String) (df : DataFrame)
    (cur : List String) (x : String) (hx : x ∈ colNames df) :
    x ∈ colNames (addMissing df cur req) := by
  obtain ⟨s, hs⟩ := addMissing_cols_suffix req df cur
  have hnames : colNames (addMissing df cur req)
      = colNames df ++ s.map Prod.fst := by
    rw [colNames, hs, List.map_append]; rfl
  rw [hnames]
  exact List.mem_append_left _ hx

theorem addMissing_names_getD (req : List String) (df : DataFrame)
    (cur : List String) (i : Nat) (h : i < df.cols.length) :
    (colNames (addMissing df cur req)).getD i "" = (colNames df).getD i "" := by
  obtain ⟨s, hs⟩ := addMissing_cols_suffix req df cur
  have hnames : colNames (addMissing df cur req)
      = colNames df ++ s.map Prod.fst := by
    rw [colNames, hs, List.map_append]; rfl
  rw [hnames]
  exact List.getD_append _ _ _ _ (by simpa [colNames] using h)

theorem addMissing_cols_length_ge (req : List String) (df : DataFrame)
    (cur : List String) :
    df.cols.length ≤ (addMissing df cur req).cols.length := by
  obtain ⟨s, hs⟩ := addMissing_cols_suffix req df cur
  simp [hs]

theorem addMissing_rows_length (req : List String) :
    ∀ df cur, (addMissing df cur req).rows.length = df.rows.length := by
  induction req with
  | nil => exact fun df cur => rfl
  | cons c t ih =>
    intro df cur
    rw [addMissing, List.foldl_cons, ← addMissing]
    by_cases h : strLower c ∈ cur
    · simp only [addStep, if_pos h]
      exact ih df cur
    · simp only [addStep, if_neg h]
      rw [ih]
      simp [withColumnNullString]

theorem addMissing_cellAt (req : List String) :
    ∀ df cur j i, cellAt (addMissing df cur req) j i = cellAt df j i := by
  induction req with
  | nil => exact fun df cur j i => rfl
  | cons c t ih =>
    intro df cur j i
    rw [addMissing, List.foldl_cons, ← addMissing]
    by_cases h : strLower c ∈ cur
    · simp only [addStep, if_pos h]
      exact ih df cur j i
    · simp only [addStep, if_neg h]
      rw [ih, cellAt_withColumnNullString]

theorem addMissing_not_mem (req : List String) :
    ∀ df cur x, x ∉ colNames df → x ∉ req →
      x ∉ colNames (addMissing df cur req) := by
  induction req with
  | nil => exact fun df cur x hx _ => hx
  | cons c t ih =>
    intro df cur x hx hr
    simp only [List.mem_cons, not_or] at hr
    rw [addMissing, List.foldl_cons, ← addMissing]
    by_cases h : strLower c ∈ cur
    · simp only [addStep, if_pos h]
      exact ih df cur x hx hr.2
    · simp only [addStep, if_neg h]
      apply ih _ cur x _ hr.2
      rw [colNames_withColumnNullString]
      intro hmem
      rcases List.mem_append.mp hmem with hmem | hmem
      · exact hx hmem
      · exact hr.1 (by simpa using hmem)

theorem addMissing_getCol (req : List String) :
    ∀ df cur x, x ∈ colNames df →
      getCol (addMissing df cur req) x = getCol df x := by
  induction req with
  | nil => exact fun df cur x _ => rfl
  | cons c t ih =>
    intro df cur x hx
    rw [addMissing, List.foldl_cons, ← addMissing]
    by_cases h : strLower c ∈ cur
    · simp only [addStep, if_pos h]
      exact ih df cur x hx
    · simp only [addStep, if_neg h]
      have hx' : x ∈ colNames (withColumnNullString df c) := by
        rw [colNames_withColumnNullString]
        exact List.mem_append_left _ hx
      rw [ih _ cur x hx', getCol_withColumnNullString df c x hx]

theorem addMissing_covers (req : List String) :
    ∀ df cur name, name ∈ req →
      strLower name ∈ cur ∨ name ∈ colNames (addMissing df cur req) := by
  induction req with
  | nil => intro df cur name h; simp at h
  | cons c t ih =>
    intro df cur name hname
    rw [addMissing, List.foldl_cons, ← addMissing]
    rcases List.mem_cons.mp hname with rfl | hname
    · by_cases h : strLower name ∈ cur
      · exact Or.inl h
      · right
        simp only [addStep, if_neg h]
        apply addMissing_mem_mono
        rw [colNames_withColumnNullString]
        exact List.mem_append_right _ (by simp)
    · by_cases h : strLower c ∈ cur
      · simp only [addStep, if_pos h]
        exact ih df cur name hname
      · simp only [addStep, if_neg h]
        exact ih _ cur name hname

theorem addMissingSteps_fst (cur : List String) (req : List String) :
    ∀ p : DataFrame × List String,
      (req.foldl (fun acc col =>
        if strLower col ∈ cur then acc
        else (withColumnNullString acc.1 col, acc.2 ++ [col])) p).1
      = addMissing p.1 cur req := by
  induction req with
  | nil => exact fun p => rfl
  | cons c t ih =>
    intro p
    rw [List.foldl_cons, addMissing, List.foldl_cons, ← addMissing]
    by_cases h : strLower c ∈ cur
    · rw [if_pos h]
      have hstep : addStep cur p.1 c = p.1 := by simp [addStep, h]
      rw [hstep]
      exact ih p
    · rw [if_neg h]
      have hstep : addStep cur p.1 c = withColumnNullString p.1 c := by
        simp [addStep, h]
      rw [hstep]
      exact ih _

theorem renameLoop_names_getD (m : List (String × String)) :
    ∀ df i, i < df.cols.length →
      (colNames (renameLoop df m)).getD i "" = (colNames df).getD i ""
        ∨ (colNames (renameLoop df m)).getD i "" ∈ m.map Prod.snd := by
  induction m with
  | nil => exact fun df i _ => Or.inl rfl
  | cons p t ih =>
    intro df i h
    rw [renameLoop, List.foldl_cons, ← renameLoop]
    have hlen : i < (renameStep df p).cols.length := by
      unfold renameStep
      by_cases hp : p.1 ∈ colNames df <;> simp [hp, withColumnRenamed, h]
    have hstep : (colNames (renameStep df p)).getD i "" = (colNames df).getD i ""
        ∨ (colNames (renameStep df p)).getD i "" = p.2 := by
      unfold renameStep
      by_cases hp : p.1 ∈ colNames df
      · rw [if_pos hp]
        have hlen' : i < (colNames df).length := by simpa [colNames] using h
        have hval : (colNames (withColumnRenamed df p.1 p.2)).getD i ""
            = if (colNames df).getD i "" = p.1 then p.2
              else (colNames df).getD i "" := by
          rw [colNames_rename]
          exact getD_map_of_lt _ _ _ hlen' "" ""
        rw [hval]
        by_cases ho : (colNames df).getD i "" = p.1
        · exact Or.inr (if_pos ho)
        · exact Or.inl (if_neg ho)
      · rw [if_neg hp]
        exact Or.inl rfl
    rcases ih (renameStep df p) i hlen with h1 | h1
    · rcases hstep with h2 | h2
      · exact Or.inl (h1.trans h2)
      · exact Or.inr (by rw [h1, h2]; exact List.mem_cons_self _ _)
    · exact Or.inr (List.mem_cons_of_mem _ h1)

/-! Lemmas about the name-aligned union. -/

theorem unionByName_cols (a b : DataFrame) :
    (unionByName a b).cols
      = a.cols ++ b.cols.filter (fun c => decide (c.1 ∉ colNames a)) := rfl

theorem unionByName_rows (a b : DataFrame) :
    (unionByName a b).rows
      = a.rows.map (fun r => r ++ (b.cols.filter
            (fun c => decide (c.1 ∉ colNames a))).map (fun _ => (none : Val)))
        ++ b.rows.map (fun r => (a.cols ++ b.cols.filter
            (fun c => decide (c.1 ∉ colNames a))).map
              (fun c => lookupVal (colNames b) r c.1)) := rfl

theorem unionByName_colNames (a b : DataFrame) :
    colNames (unionByName a b)
      = colNames a ++ (b.cols.filter
          (fun c => decide (c.1 ∉ colNames a))).map Prod.fst := by
  rw [colNames, unionByName_cols, List.map_append]
  rfl

theorem mem_extra_names (a b : DataFrame) (w : String) :
    w ∈ (b.cols.filter (fun c => decide (c.1 ∉ colNames a))).map Prod.fst
      ↔ w ∈ colNames b ∧ w ∉ colNames a := by
  constructor
  · intro hw
    obtain ⟨c, hc, rfl⟩ := List.mem_map.mp hw
    have hf := List.mem_filter.mp hc
    refine ⟨?_, by simpa using hf.2⟩
    show c.1 ∈ b.cols.map Prod.fst
    exact List.mem_map.mpr ⟨c, hf.1, rfl⟩
  · rintro ⟨hwb, hwa⟩
    have hwb' : w ∈ b.cols.map Prod.fst := hwb
    obtain ⟨c, hc, rfl⟩ := List.mem_map.mp hwb'
    exact List.mem_map.mpr ⟨c, List.mem_filter.mpr ⟨hc, by simpa using hwa⟩, rfl⟩

/-- C3: for two present well-formed datasets, the union stage invokes the
engine union, whose column set is the union of the two input column sets,
whose row count is the sum of the input row counts, and whose cells are
null at a column the contributing input lacks: rows contributed by the
first input (positions below its row count) are null at any column only
the second input has, and rows contributed by the second input are null at
any column only the first input has. -/
theorem union_schema_rows_nulls (a b : DataFrame) (z x y : String) (i j : Nat)
    (hwa : WF a) (hwb : WF b)
    (hx : x ∈ colNames b) (hx' : x ∉ colNames a) (hi : i < a.rows.length)
    (hy : y ∈ colNames a) (hy' : y ∉ colNames b) (hj : j < b.rows.length) :
    unionDataframes (some a) (some b) = .ok (some (unionByName a b), true) ∧
    (z ∈ colNames (unionByName a b) ↔ z ∈ colNames a ∨ z ∈ colNames b) ∧
    (unionByName a b).rows.length = a.rows.length + b.rows.length ∧
    lookupVal (colNames (unionByName a b))
      ((unionByName a b).rows.getD i []) x = none ∧
    lookupVal (colNames (unionByName a b))
      ((unionByName a b).rows.getD (a.rows.length + j) []) y = none := by
  refine ⟨rfl, ?_, ?_, ?_, ?_⟩
  · rw [unionByName_colNames, List.mem_append, mem_extra_names]
    constructor
    · rintro (h | ⟨h1, h2⟩)
      · exact Or.inl h
      · exact Or.inr h1
    · rintro (h | h)
      · exact Or.inl h
      · by_cases ha : z ∈ colNames a
        · exact Or.inl ha
        · exact Or.inr ⟨h, ha⟩
  · rw [unionByName_rows]
    simp
  · rw [unionByName_rows, unionByName_colNames]
    rw [List.getD_append _ _ _ _ (by simpa using hi)]
    rw [getD_map_of_lt _ _ _ hi [] []]
    have hxe : x ∈ (b.cols.filter
        (fun c => decide (c.1 ∉ colNames a))).map Prod.fst :=
      (mem_extra_names a b x).mpr ⟨hx, hx'⟩
    obtain ⟨k, hk, hklen⟩ := idxOf?_eq_some_of_mem _ x hxe
    have hidx : idxOf? (colNames a ++ (b.cols.filter
        (fun c => decide (c.1 ∉ colNames a))).map Prod.fst) x
        = some (k + (colNames a).length) := by
      rw [idxOf?_append_right _ _ _ hx', hk]
      rfl
    simp only [lookupVal, hidx]
    have harow : (a.rows.getD i []).length = a.cols.length :=
      hwa _ (getD_mem a.rows i [] hi)
    have hcn : (colNames a).length = a.cols.length := by simp [colNames]
    have hidx2 : k + (colNames a).length = (a.rows.getD i []).length + k := by
      rw [hcn, harow]
      exact Nat.add_comm _ _
    rw [hidx2, getD_append_add]
    have hklen' : k < (b.cols.filter
        (fun c => decide (c.1 ∉ colNames a))).length := by
      simpa using hklen
    rw [getD_map_of_lt _ _ _ hklen' none ("", "")]
  · rw [unionByName_rows, unionByName_colNames]
    have hlenA : (a.rows.map (fun r => r ++ (b.cols.filter
        (fun c => decide (c.1 ∉ colNames a))).map
          (fun _ => (none : Val)))).length = a.rows.length := by simp
    rw [show a.rows.length + j = (a.rows.map (fun r => r ++ (b.cols.filter
        (fun c => decide (c.1 ∉ colNames a))).map
          (fun _ => (none : Val)))).length + j by rw [hlenA]]
    rw [getD_append_add]
    rw [getD_map_of_lt _ _ _ hj [] []]
    obtain ⟨k, hk, hklen⟩ := idxOf?_eq_some_of_mem (colNames a) y hy
    have hidx : idxOf? (colNames a ++ (b.cols.filter
        (fun c => decide (c.1 ∉ colNames a))).map Prod.fst) y = some k := by
      rw [idxOf?_append_left _ _ _ hy, hk]
    simp only [lookupVal, hidx]
    have hklen2 : k < (a.cols ++ b.cols.filter
        (fun c => decide (c.1 ∉ colNames a))).length := by
      have h1 : k < a.cols.length := by simpa [colNames] using hklen
      have h2 : a.cols.length ≤ (a.cols ++ b.cols.filter
          (fun c => decide (c.1 ∉ colNames a))).length := by simp
      exact lt_of_lt_of_le h1 h2
    rw [getD_map_of_lt _ _ _ hklen2 none ("", "")]
    have hname : ((a.cols ++ b.cols.filter
        (fun c => decide (c.1 ∉ colNames a))).getD k ("", "")).1 = y := by
      have hgd := idxOf?_getD _ y k "" hidx
      have hmapapp : colNames a ++ (b.cols.filter
          (fun c => decide (c.1 ∉ colNames a))).map Prod.fst
          = (a.cols ++ b.cols.filter
              (fun c => decide (c.1 ∉ colNames a))).map Prod.fst := by
        rw [List.map_append]
        rfl
      rw [hmapapp] at hgd
      rw [getD_map_of_lt Prod.fst _ _ hklen2 "" ("", "")] at hgd
      exact hgd
    rw [hname]
    simp only [lookupVal, idxOf?_eq_none _ _ hy']

theorem union_schema_rows_nulls_witness :
    WF dfA ∧ WF dfB ∧
    (unionDataframes (some dfA) (some dfB)
        = .ok (some (unionByName dfA dfB), true) ∧
    ("y" ∈ colNames (unionByName dfA dfB)
        ↔ "y" ∈ colNames dfA ∨ "y" ∈ colNames dfB) ∧
    (unionByName dfA dfB).rows.length = dfA.rows.length + dfB.rows.length ∧
    lookupVal (colNames (unionByName dfA dfB))
      ((unionByName dfA dfB).rows.getD 0 []) "z" = none ∧
    lookupVal (colNames (unionByName dfA dfB))
      ((unionByName dfA dfB).rows.getD (dfA.rows.length + 0) []) "x" = none) := by
  exact ⟨by decide, by decide,
    union_schema_rows_nulls dfA dfB "y" "z" "x" 0 0 (by decide) (by decide)
      (by decide) (by decide) (by decide) (by decide) (by decide) (by decide)⟩

/-- C1 counterexample: a mapping entry whose old and new names coincide
leaves the old name in the result, so a mapping key naming a column of the
input is not always absent from the columns of the harmonized result. -/
theorem rename_identity_counterexample :
    ("a", "a") ∈ [("a", "a")] ∧
    "a" ∈ colNames ⟨[("a", "int")], [[some "1"]]⟩ ∧
    "a" ∈ colNames (processDataframe ⟨[("a", "int")], [[some "1"]]⟩ [("a", "a")] []) := by
  refine ⟨by decide, by decide, by decide⟩

/-- C1 (amended): for a mapping entry (old, new) whose old name is a column
of the input, old is absent from the harmonized columns and new is a column
holding the original values of old, provided the names do not collide: old
is not the target of any mapping entry and not in the required list, and
new is not an input column, not a key of a later entry, and not the target
of any other entry.  Renames are applied in mapping order, each seeing the
effect of earlier renames, and a key not currently a column is skipped. -/
theorem process_rename_spec (df : DataFrame) (l₁ l₂ : List (String × String))
    (old new : String) (required : List String)
    (h_old_col : old ∈ colNames df)
    (h_old_key : old ∉ l₁.map Prod.fst)
    (h_old_tgt : old ∉ (l₁ ++ (old, new) :: l₂).map Prod.snd)
    (h_old_req : old ∉ required)
    (h_new_col : new ∉ colNames df)
    (h_new_key : new ∉ l₂.map Prod.fst)
    (h_new_tgt : new ∉ (l₁ ++ l₂).map Prod.snd) :
    old ∉ colNames (processDataframe df (l₁ ++ (old, new) :: l₂) required) ∧
    new ∈ colNames (processDataframe df (l₁ ++ (old, new) :: l₂) required) ∧
    getCol (processDataframe df (l₁ ++ (old, new) :: l₂) required) new
      = getCol df old := by
  have hne : new ≠ old := fun h => h_new_col (h ▸ h_old_col)
  simp only [List.map_append, List.map_cons, List.mem_append, List.mem_cons,
    not_or] at h_old_tgt h_new_tgt
  have h_old_tgt1 : old ∉ l₁.map Prod.snd := h_old_tgt.1
  have h_old_tgt2 : old ∉ l₂.map Prod.snd := h_old_tgt.2.2
  have h_new_tgt1 : new ∉ l₁.map Prod.snd := h_new_tgt.1
  have h_new_tgt2 : new ∉ l₂.map Prod.snd := h_new_tgt.2
  obtain ⟨hA_mem, hA_col⟩ :=
    renameLoop_preserve l₁ df old h_old_col h_old_key h_old_tgt1
  have hB : new ∉ colNames (renameLoop df l₁) :=
    renameLoop_not_mem l₁ df new h_new_col h_new_tgt1
  have hstep : renameStep (renameLoop df l₁) (old, new)
      = withColumnRenamed (renameLoop df l₁) old new := by
    unfold renameStep
    rw [if_pos hA_mem]
  have hRL : renameLoop df (l₁ ++ (old, new) :: l₂)
      = renameLoop (withColumnRenamed (renameLoop df l₁) old new) l₂ := by
    rw [renameLoop_append, ← hstep]
    rfl
  have h2_new_mem : new ∈ colNames (withColumnRenamed (renameLoop df l₁) old new) :=
    mem_colNames_rename_new _ old new hA_mem
  have h2_old_not : old ∉ colNames (withColumnRenamed (renameLoop df l₁) old new) :=
    not_mem_colNames_rename_old _ old new hne
  have h2_col : getCol (withColumnRenamed (renameLoop df l₁) old new) new
      = getCol (renameLoop df l₁) old := getCol_rename_new _ old new hB
  obtain ⟨h3_mem, h3_col⟩ :=
    renameLoop_preserve l₂ _ new h2_new_mem h_new_key h_new_tgt2
  have h3_old : old ∉ colNames (renameLoop (withColumnRenamed (renameLoop df l₁) old new) l₂) :=
    renameLoop_not_mem l₂ _ old h2_old_not h_old_tgt2
  have hPD : processDataframe df (l₁ ++ (old, new) :: l₂) required
      = addMissing (renameLoop (withColumnRenamed (renameLoop df l₁) old new) l₂)
          ((colNames (renameLoop (withColumnRenamed (renameLoop df l₁) old new) l₂)).map strLower)
          required := by
    show addMissing (renameLoop df (l₁ ++ (old, new) :: l₂))
        ((colNames (renameLoop df (l₁ ++ (old, new) :: l₂))).map strLower) required = _
    rw [hRL]
  rw [hPD]
  refine ⟨addMissing_not_mem required _ _ old h3_old h_old_req,
    addMissing_mem_mono required _ _ new h3_mem, ?_⟩
  rw [addMissing_getCol required _ _ new h3_mem, h3_col, h2_col, hA_col]

theorem process_rename_spec_witness :
    "a" ∈ colNames ⟨[("a", "int")], [[some "1"]]⟩ ∧
    "a" ∉ colNames (processDataframe ⟨[("a", "int")], [[some "1"]]⟩ [("a", "b")] []) ∧
    "b" ∈ colNames (processDataframe ⟨[("a", "int")], [[some "1"]]⟩ [("a", "b")] []) ∧
    getCol (processDataframe ⟨[("a", "int")], [[some "1"]]⟩ [("a", "b")] []) "b"
      = getCol ⟨[("a", "int")], [[some "1"]]⟩ "a" := by
  obtain ⟨h1, h2, h3⟩ := process_rename_spec ⟨[("a", "int")], [[some "1"]]⟩ [] []
    "a" "b" [] (by decide) (by decide) (by decide) (by decide) (by decide)
    (by decide) (by decide)
  exact ⟨by decide, h1, h2, h3⟩

/-- C2: after harmonization every name of the required-columns list is
present case-insensitively in the column set of the result. -/
theorem process_required_present_ci (df : DataFrame)
    (mapping : List (String × String)) (required : List String) (name : String)
    (h : name ∈ required) :
    ∃ c ∈ colNames (processDataframe df mapping required),
      strLower c = strLower name := by
  have hPD : processDataframe df mapping required
      = addMissing (renameLoop df mapping)
          ((colNames (renameLoop df mapping)).map strLower) required := rfl
  rw [hPD]
  rcases addMissing_covers required (renameLoop df mapping)
      ((colNames (renameLoop df mapping)).map strLower) name h with hc | hc
  · obtain ⟨c, hcmem, hceq⟩ := List.mem_map.mp hc
    exact ⟨c, addMissing_mem_mono _ _ _ c hcmem, hceq⟩
  · exact ⟨name, hc, rfl⟩

theorem process_required_present_ci_witness :
    "Id" ∈ ["Id"] ∧
    ∃ c ∈ colNames (processDataframe ⟨[("ID", "int")], []⟩ [] ["Id"]),
      strLower c = strLower "Id" := by
  exact ⟨by decide,
    process_required_present_ci ⟨[("ID", "int")], []⟩ [] ["Id"] "Id" (by decide)⟩

/-- C7: harmonization never removes a column: the result has at least as
many columns as the input, the row count is unchanged, every cell of the
input is unchanged at its position, and the name at each input column
position is either the original name or a rename target of the mapping. -/
theorem process_preserves_columns (df : DataFrame)
    (mapping : List (String × String)) (required : List String) (j i : Nat)
    (hi : i < df.cols.length) :
    df.cols.length ≤ (processDataframe df mapping required).cols.length ∧
    (processDataframe df mapping required).rows.length = df.rows.length ∧
    cellAt (processDataframe df mapping required) j i = cellAt df j i ∧
    ((colNames (processDataframe df mapping required)).getD i ""
        = (colNames df).getD i ""
      ∨ (colNames (processDataframe df mapping required)).getD i ""
          ∈ mapping.map Prod.snd) := by
  have hPD : processDataframe df mapping required
      = addMissing (renameLoop df mapping)
          ((colNames (renameLoop df mapping)).map strLower) required := rfl
  rw [hPD]
  refine ⟨?_, ?_, ?_, ?_⟩
  · calc df.cols.length = (renameLoop df mapping).cols.length :=
          (renameLoop_cols_length mapping df).symm
      _ ≤ _ := addMissing_cols_length_ge required _ _
  · rw [addMissing_rows_length, renameLoop_rows]
  · rw [addMissing_cellAt]
    unfold cellAt
    rw [renameLoop_rows]
  · have hlen : i < (renameLoop df mapping).cols.length := by
      rw [renameLoop_cols_length]
      exact hi
    rw [addMissing_names_getD required _ _ i hlen]
    exact renameLoop_names_getD mapping df i hi

theorem process_preserves_columns_witness :
    0 < 1 ∧
    (1 ≤ (processDataframe ⟨[("a", "int")], [[some "1"]]⟩ [("a", "b")] ["c"]).cols.length ∧
    (processDataframe ⟨[("a", "int")], [[some "1"]]⟩ [("a", "b")] ["c"]).rows.length = 1 ∧
    cellAt (processDataframe ⟨[("a", "int")], [[some "1"]]⟩ [("a", "b")] ["c"]) 0 0
      = cellAt ⟨[("a", "int")], [[some "1"]]⟩ 0 0 ∧
    ((colNames (processDataframe ⟨[("a", "int")], [[some "1"]]⟩ [("a", "b")] ["c"])).getD 0 ""
        = (colNames ⟨[("a", "int")], [[some "1"]]⟩).getD 0 ""
      ∨ (colNames (processDataframe ⟨[("a", "int")], [[some "1"]]⟩ [("a", "b")] ["c"])).getD 0 ""
          ∈ [("a", "b")].map Prod.snd)) := by
  exact ⟨by decide,
    process_preserves_columns ⟨[("a", "int")], [[some "1"]]⟩ [("a", "b")] ["c"] 0 0 (by decide)⟩

/-- C8: when the required-columns loop appends a missing column, the loop
takes the append branch, the result has exactly one new column whose name
keeps the exact case of the required entry and whose dtype is the generic
string type, the row count is unchanged, every existing cell is unchanged,
and every cell of the appended column is null. -/
theorem append_missing_column_frame (acc : DataFrame) (cur : List String)
    (col : String) (rest : List String) (r : List Val) (j i : Nat)
    (h : strLower col ∉ cur) (hwf : WF acc)
    (hr : r ∈ (withColumnNullString acc col).rows) :
    addMissing acc cur (col :: rest)
      = addMissing (withColumnNullString acc col) cur rest ∧
    (withColumnNullString acc col).cols = acc.cols ++ [(col, "string")] ∧
    (withColumnNullString acc col).rows.length = acc.rows.length ∧
    cellAt (withColumnNullString acc col) j i = cellAt acc j i ∧
    r.getD acc.cols.length none = none := by
  refine ⟨?_, rfl, by simp [withColumnNullString],
    cellAt_withColumnNullString acc col j i, ?_⟩
  · rw [addMissing, List.foldl_cons, ← addMissing]
    simp only [addStep, if_neg h]
  · have hrows : (withColumnNullString acc col).rows
        = acc.rows.map (· ++ [none]) := rfl
    rw [hrows] at hr
    obtain ⟨r₀, hr₀, rfl⟩ := List.mem_map.mp hr
    rw [← hwf r₀ hr₀]
    exact getD_append_add r₀ [none] none 0

theorem append_missing_column_frame_witness :
    strLower "b" ∉ ["a"] ∧
    (addMissing ⟨[("a", "int")], [[some "1"]]⟩ ["a"] ["b"]
      = addMissing (withColumnNullString ⟨[("a", "int")], [[some "1"]]⟩ "b") ["a"] [] ∧
    (withColumnNullString ⟨[("a", "int")], [[some "1"]]⟩ "b").cols
      = [("a", "int")] ++ [("b", "string")] ∧
    (withColumnNullString ⟨[("a", "int")], [[some "1"]]⟩ "b").rows.length = 1 ∧
    cellAt (withColumnNullString ⟨[("a", "int")], [[some "1"]]⟩ "b") 0 0
      = cellAt ⟨[("a", "int")], [[some "1"]]⟩ 0 0 ∧
    List.getD [some "1", none] 1 none = none) := by
  exact ⟨by decide,
    append_missing_column_frame ⟨[("a", "int")], [[some "1"]]⟩ ["a"] "b" []
      [some "1", none] 0 0 (by decide) (by decide) (by decide)⟩

/-- C4 counterexample: the Harmonizer stage, given an absent dataset, lets
the attribute-access exception escape instead of returning a sentinel, so
not every stage swallows failures at its own boundary. -/
theorem process_stage_raises_on_none :
    processDataframeStage none [] []
      = .error "AttributeError: NoneType object has no attribute columns" := rfl

/-- C4 (amended): the Loader, Unioner and Writer never let an exception
escape and turn failures into sentinel values (None or False); the
Harmonizer returns normally on every present dataset, but it has no
exception boundary and raises on an absent dataset instead of returning a
sentinel. -/
theorem stage_exception_boundaries :
    (∀ read path ft opts, ∃ v, loadDataframe read path ft opts = .ok v) ∧
    (∀ df1 df2, ∃ v, unionDataframes df1 df2 = .ok v) ∧
    (∀ df p f o w, ∃ v, saveDataframe df p f o w = .ok v) ∧
    (∀ path opts e, loadDataframe (fun _ => .error e) path "json" opts = .ok none) ∧
    (∀ d p o e, saveDataframe (some d) p "csv" o (fun _ => .error e)
      = .ok (false, some "csv")) ∧
    (∀ d m r, ∃ v, processDataframeStage (some d) m r = .ok v) ∧
    (∀ m r, ∃ e, processDataframeStage none m r = .error e) := by
  refine ⟨fun read path ft opts => ⟨_, rfl⟩, fun df1 df2 => ?_, fun df p f o w => ?_,
    fun path opts e => rfl, fun d p o e => rfl,
    fun d m r => ⟨_, rfl⟩, fun m r => ⟨_, rfl⟩⟩
  · cases df1 <;> cases df2 <;> exact ⟨_, rfl⟩
  · cases df <;> exact ⟨_, rfl⟩

/-- C5: a union with either input absent returns the absent sentinel
without invoking the engine union operation, and a save of an absent
dataset returns False without attempting any write, for every path, format
tag and options. -/
theorem union_save_absent_short_circuit :
    (∀ df2, unionDataframes none df2 = .ok (none, false)) ∧
    (∀ df1, unionDataframes df1 none = .ok (none, false)) ∧
    (∀ p f o w, saveDataframe none p f o w = .ok (false, none)) := by
  refine ⟨fun df2 => ?_, fun df1 => ?_, fun p f o w => rfl⟩
  · cases df2 <;> rfl
  · cases df1 <;> rfl

/-- C6: a file type whose lowercase form is neither json nor csv makes the
Loader return None without raising, and a file format whose lowercase form
is none of csv, parquet, json makes the Writer return False without raising
and without invoking any writer. -/
theorem unsupported_format_sentinels
    (read : String → Except String DataFrame) (path ft : String)
    (opts : List (String × String)) (df : DataFrame) (p ff : String)
    (o : List (String × String)) (w : String → Except String Unit)
    (h1 : strLower ft ≠ "json") (h2 : strLower ft ≠ "csv")
    (h3 : strLower ff ≠ "csv") (h4 : strLower ff ≠ "parquet")
    (h5 : strLower ff ≠ "json") :
    loadDataframe read path ft opts = .ok none ∧
    saveDataframe (some df) p ff o w = .ok (false, none) := by
  constructor
  · simp [loadDataframe, h1, h2]
  · simp [saveDataframe, h3, h4, h5]

theorem unsupported_format_sentinels_witness :
    strLower "xml" ≠ "json" ∧
    loadDataframe (fun _ => .error "boom") "a.json" "xml" [] = .ok none ∧
    saveDataframe (some ⟨[], []⟩) "out" "txt" [] (fun _ => .ok ()) = .ok (false, none) := by
  obtain ⟨hl, hs⟩ := unsupported_format_sentinels (fun _ => .error "boom") "a.json" "xml"
    [] ⟨[], []⟩ "out" "txt" [] (fun _ => .ok ())
    (by decide) (by decide) (by decide) (by decide) (by decide)
  exact ⟨by decide, hl, hs⟩

/-- C9: format tags are matched on their lowercase form, so any case
variant of json or csv makes the Loader invoke the corresponding reader,
and any case variant of csv, parquet or json makes the Writer invoke the
corresponding writer. -/
theorem format_tag_case_insensitive_dispatch
    (read : String → Except String DataFrame) (path : String)
    (opts : List (String × String)) (df : DataFrame) (p : String)
    (o : List (String × String)) (w : String → Except String Unit)
    (ftj ftc fwc fwp fwj : String)
    (hj : strLower ftj = "json") (hc : strLower ftc = "csv")
    (hwc : strLower fwc = "csv") (hwp : strLower fwp = "parquet")
    (hwj : strLower fwj = "json") :
    loadDataframe read path ftj opts = .ok (caughtRead (read "json")) ∧
    loadDataframe read path ftc opts = .ok (caughtRead (read "csv")) ∧
    saveDataframe (some df) p fwc o w = .ok (attemptWrite w "csv") ∧
    saveDataframe (some df) p fwp o w = .ok (attemptWrite w "parquet") ∧
    saveDataframe (some df) p fwj o w = .ok (attemptWrite w "json") := by
  refine ⟨?_, ?_, ?_, ?_, ?_⟩ <;>
    simp [loadDataframe, saveDataframe, hj, hc, hwc, hwp, hwj]

theorem format_tag_case_insensitive_dispatch_witness :
    strLower "JSON" = "json" ∧ strLower "Parquet" = "parquet" ∧
    loadDataframe (fun s => .ok ⟨[(s, "string")], []⟩) "a" "JSON" []
      = .ok (some ⟨[("json", "string")], []⟩) ∧
    saveDataframe (some ⟨[], []⟩) "out" "Parquet" [] (fun _ => .ok ())
      = .ok (true, some "parquet") := by
  obtain ⟨h1, h2, h3, h4, h5⟩ := format_tag_case_insensitive_dispatch
    (fun s => .ok ⟨[(s, "string")], []⟩) "a" [] ⟨[], []⟩ "out" [] (fun _ => .ok ())
    "JSON" "Csv" "cSV" "Parquet" "jSoN"
    (by decide) (by decide) (by decide) (by decide) (by decide)
  exact ⟨by decide, by decide, h1, h4⟩

/-- C10: the lowercased current-columns snapshot is computed once before
the required-columns loop and not refreshed when a column is appended, so
for two required names with the same lowercase form, both absent from the
snapshot, the append branch executes for each entry rather than skipping
the second: the instrumented loop records a withColumn call for both, in
order, whatever the engine withColumn operation does, and with the engine
operation the embedding uses its dataset agrees with process_dataframe. -/
theorem required_snapshot_stale_double_append
    (withCol : DataFrame → String → DataFrame)
    (df : DataFrame) (mapping : List (String × String)) (r1 r2 : String)
    (h1 : strLower r1 ∉ (colNames (renameLoop df mapping)).map strLower)
    (h2 : strLower r2 = strLower r1) :
    (addMissingSteps withCol (renameLoop df mapping)
        ((colNames (renameLoop df mapping)).map strLower) [r1, r2]).2
      = [r1, r2] ∧
    (addMissingSteps withColumnNullString (renameLoop df mapping)
        ((colNames (renameLoop df mapping)).map strLower) [r1, r2]).1
      = processDataframe df mapping [r1, r2] := by
  have h1' : strLower r2 ∉ (colNames (renameLoop df mapping)).map strLower := by
    rw [h2]; exact h1
  constructor
  · simp only [addMissingSteps, List.foldl, if_neg h1, if_neg h1']
    rfl
  · exact addMissingSteps_fst _ _ _

theorem required_snapshot_stale_double_append_witness :
    strLower "a" ∉ (colNames (renameLoop ⟨[], []⟩ [])).map strLower ∧
    ((addMissingSteps withColumnNullString (renameLoop ⟨[], []⟩ [])
        ((colNames (renameLoop ⟨[], []⟩ [])).map strLower) ["a", "A"]).2
      = ["a", "A"] ∧
    (addMissingSteps withColumnNullString (renameLoop ⟨[], []⟩ [])
        ((colNames (renameLoop ⟨[], []⟩ [])).map strLower) ["a", "A"]).1
      = processDataframe ⟨[], []⟩ [] ["a", "A"]) := by
  exact ⟨by decide,
    required_snapshot_stale_double_append withColumnNullString ⟨[], []⟩ [] "a" "A"
      (by decide) (by decide)⟩

end FusaoMercados
